import Mathlib

/-!
Shallow embedding of `set_custom_properties.py`: a CLI utility that sets
custom properties on every repository of a GitHub organization.

Strings are modelled as `List Char` (`Str`).  Network effects are modelled
by oracles: the outcome of the connection, of the repository listing, and
of each HTTP PATCH request are inputs to the embedded functions, and the
requests issued are returned as an explicit trace.
-/

abbrev Str := List Char

deriving instance DecidableEq for Except

/-- Python `str.isspace`-style whitespace test used by `str.strip`. -/
def ws (c : Char) : Bool := c.isWhitespace

/-- Leading-whitespace strip (`str.lstrip`). -/
def lstrip (l : Str) : Str := l.dropWhile ws

/-- Trailing-whitespace strip (`str.rstrip`). -/
def rstrip : Str → Str
  | [] => []
  | c :: t =>
    match rstrip t with
    | [] => if ws c then [] else [c]
    | r => c :: r

/-- Python `str.strip`: drop whitespace at both ends. -/
def strip (l : Str) : Str := rstrip (lstrip l)

/-- Python `s.split(c, 1)` when `c` occurs in `s`: the part before the
first occurrence of `c` and the part after it. -/
def splitFirst (c : Char) : Str → Str × Str
  | [] => ([], [])
  | x :: xs =>
    if x = c then ([], xs)
    else
      let p := splitFirst c xs
      (x :: p.1, p.2)

/-- Parsing of one `--property` argument (main, lines 314-328):
strip; reject empty; reject when no `=` occurs; split at the first `=`;
strip name and value; reject an empty name. -/
def parseProperty (s : Str) : Except Unit (Str × Str) :=
  let p := strip s
  if p.isEmpty then .error ()
  else if ¬ p.contains '=' then .error ()
  else
    let nv := splitFirst '=' p
    let name := strip nv.1
    let value := strip nv.2
    if name.isEmpty then .error () else .ok (name, value)

/-- Python dict assignment `d[name] = value`: replace the value in place
when the key is present, append otherwise. -/
def dictInsert : List (Str × Str) → Str → Str → List (Str × Str)
  | [], n, v => [(n, v)]
  | (k, w) :: rest, n, v =>
    if k = n then (k, v) :: rest else (k, w) :: dictInsert rest n v

/-- The `--property` loop of `main`: parse each argument in order and
assign it into the mapping; any malformed argument aborts (sys.exit(1)). -/
def addCliProps (m : List (Str × Str)) : List Str → Except Unit (List (Str × Str))
  | [] => .ok m
  | a :: rest =>
    match parseProperty a with
    | .error _ => .error ()
    | .ok nv => addCliProps (dictInsert m nv.1 nv.2) rest

/-- The combined property sources of `main`: the properties file (when
given, either its parsed mapping or a load failure) followed by the
`--property` arguments. -/
def combinedProps (propsFile : Option (Except Unit (List (Str × Str))))
    (propArgs : List Str) : Except Unit (List (Str × Str)) :=
  match propsFile with
  | some (.error _) => .error ()
  | some (.ok fileProps) => addCliProps fileProps propArgs
  | none => addCliProps [] propArgs

/-- A repository record: short name and fully qualified name. -/
structure Repo where
  name : Str
  full_name : Str
deriving DecidableEq, Repr

/-- Python `str.lower` (on the ASCII range relevant here). -/
def lower (s : Str) : Str := s.map Char.toLower

/-- Python substring operator `needle in hay`. -/
def containsSub (needle : Str) : Str → Bool
  | [] => needle.isEmpty
  | c :: rest => needle.isPrefixOf (c :: rest) || containsSub needle rest

/-- The filtering step of `set_properties_on_all_repos` (lines 179-181):
with a truthy filter, keep the repositories whose short name contains the
filter case-insensitively; `None` or an empty filter leaves the list as is. -/
def filteredRepos (repo_filter : Option Str) (repos : List Repo) : List Repo :=
  match repo_filter with
  | none => repos
  | some f =>
    if f.isEmpty then repos
    else repos.filter (fun r => containsSub (lower f) (lower r.name))

/-- Outcome of the single HTTP PATCH issued by `set_custom_property`:
a response with a status code and a body, or one of the exception kinds
caught by the function. -/
inductive HttpOutcome
  | response (status : Nat) (body : Str)
  | connectionError
  | timeout
  | requestError
  | otherError
deriving DecidableEq, Repr

/-- The value/log classification produced by `set_custom_property`:
`ok` is the `True` return; each failure constructor is one `except`
branch (the `False` returns), carrying only what the branch logs
(for an HTTP error: the status code, never the body). -/
inductive PropResult
  | ok
  | httpFailure (status : Nat)
  | connectionFailure
  | timeoutFailure
  | requestFailure
  | unexpectedFailure
deriving DecidableEq, Repr

/-- `CustomPropertySetter.set_custom_property` (lines 108-158) as a
function of the outcome of its one `requests.patch` call.
`response.raise_for_status()` raises exactly when `400 <= status < 600`. -/
def set_custom_property (o : HttpOutcome) : PropResult :=
  match o with
  | .response status _ =>
    if 400 ≤ status ∧ status < 600 then .httpFailure status else .ok
  | .connectionError => .connectionFailure
  | .timeout => .timeoutFailure
  | .requestError => .requestFailure
  | .otherError => .unexpectedFailure

/-- The boolean returned by `set_custom_property`. -/
def propOk : PropResult → Bool
  | .ok => true
  | _ => false

/-- Oracle for the boolean outcome of one `set_custom_property` call. -/
abbrev Upd := Repo → Str → Str → Bool

/-- One PATCH request issued by the batch loop. -/
structure Call where
  repo : Repo
  prop : Str
  val : Str
deriving DecidableEq, Repr

/-- The per-repository inner loop (lines 195-198): call
`set_custom_property` for every property, in order, recording each call;
the repository succeeds only if every call returned `True`. -/
def applyProperties (upd : Upd) (repo : Repo)
    (properties : List (Str × Str)) : Bool × List Call :=
  properties.foldl
    (fun acc p => (acc.1 && upd repo p.1 p.2, acc.2 ++ [⟨repo, p.1, p.2⟩]))
    (true, [])

/-- The three counters of `set_properties_on_all_repos`. -/
structure RunResults where
  success : Nat
  failed : Nat
  skipped : Nat
deriving DecidableEq, Repr

/-- `CustomPropertySetter.set_properties_on_all_repos` (lines 160-205),
given the already-fetched repository list: filter, then for each
repository either count it skipped (dry run, no calls) or attempt every
property and count it success or failed.  Returns the counters and the
trace of PATCH calls issued. -/
def set_properties_on_all_repos (upd : Upd) (repos : List Repo)
    (properties : List (Str × Str)) (dry_run : Bool)
    (repo_filter : Option Str) : RunResults × List Call :=
  (filteredRepos repo_filter repos).foldl
    (fun acc repo =>
      if dry_run then
        ({ acc.1 with skipped := acc.1.skipped + 1 }, acc.2)
      else
        let rc := applyProperties upd repo properties
        (if rc.1 then { acc.1 with success := acc.1.success + 1 }
         else { acc.1 with failed := acc.1.failed + 1 },
         acc.2 ++ rc.2))
    (⟨0, 0, 0⟩, [])

/-- The error classes PyGithub raises (`GithubException` subclasses). -/
inductive GithubError
  | auth
  | notFound
  | network
deriving DecidableEq, Repr

/-- `CustomPropertySetter.get_all_repos` (lines 73-86) as a function of
the listing outcome: on success the repository list, on any
`GithubException` an empty list (the exception is logged and swallowed). -/
def get_all_repos (listing : Except GithubError (List Repo)) : List Repo :=
  match listing with
  | .ok rs => rs
  | .error _ => []

/-- `CustomPropertySetter.validate_connection` (lines 58-71) as a function
of the `get_organization` outcome. -/
def validate_connection (connect : Except GithubError Unit) : Bool :=
  match connect with
  | .ok _ => true
  | .error _ => false

/-- A network request issued during a run of `main`. -/
inductive NetCall
  | getOrganization
  | getRepos
  | patchProps (repo : Repo) (name : Str) (value : Str)
deriving DecidableEq, Repr

/-- The command-line inputs of `main` after argparse: the token (with the
environment fallback already applied), the `--property` arguments in
order, the parsed content of `--properties-file` when given (or its load
failure), and the two modifiers. -/
structure Args where
  token : Option Str
  propArgs : List Str
  propsFile : Option (Except Unit (List (Str × Str)))
  dry_run : Bool
  filter : Option Str

/-- The remote world a run interacts with: the outcome of
`get_organization`, of `get_repos`, and of each PATCH request. -/
structure World where
  connect : Except GithubError Unit
  listing : Except GithubError (List Repo)
  http : Repo → Str → Str → HttpOutcome

/-- The update oracle `main` runs under: the boolean outcome of
`set_custom_property` applied to the world's HTTP oracle. -/
def wUpd (w : World) : Upd :=
  fun r n v => propOk (set_custom_property (w.http r n v))

/-- Python truthiness of `args.token` (line 301): missing or empty. -/
def tokenMissing : Option Str → Bool
  | none => true
  | some t => t.isEmpty

/-- `main` (lines 226-361): returns the process exit code, the trace of
network requests issued, and the counters when the batch loop ran.
Exit paths, in source order: missing token; properties-file load failure;
malformed `--property`; empty combined mapping; failed connection; then
the batch run, exiting 1 when any repository failed and 0 otherwise. -/
def mainRun (args : Args) (w : World) :
    Nat × List NetCall × Option RunResults :=
  if tokenMissing args.token then (1, [], none)
  else
    match combinedProps args.propsFile args.propArgs with
    | .error _ => (1, [], none)
    | .ok properties =>
      if properties.isEmpty then (1, [], none)
      else if ¬ validate_connection w.connect then (1, [.getOrganization], none)
      else
        let repos := get_all_repos w.listing
        let rc := set_properties_on_all_repos (wUpd w) repos properties
          args.dry_run args.filter
        ((if rc.1.failed > 0 then 1 else 0),
         .getOrganization :: .getRepos ::
           rc.2.map (fun c => NetCall.patchProps c.repo c.prop c.val),
         some rc.1)

/-! ### Lemmas about the string helpers -/

theorem dropWhile_idem (p : α → Bool) (l : List α) :
    (l.dropWhile p).dropWhile p = l.dropWhile p := by
  induction l with
  | nil => rfl
  | cons c t ih =>
    by_cases h : p c = true
    · simp [List.dropWhile_cons, h, ih]
    · simp [List.dropWhile_cons, h]

theorem lstrip_idem (l : Str) : lstrip (lstrip l) = lstrip l :=
  dropWhile_idem ws l

theorem mem_lstrip {c : Char} {l : Str} (h : c ∈ lstrip l) : c ∈ l :=
  (List.dropWhile_sublist ws).mem h

theorem lstrip_cons_of_ws {c : Char} {t : Str} (hc : ws c = true) :
    lstrip (c :: t) = lstrip t := by
  show List.dropWhile ws (c :: t) = _
  rw [List.dropWhile_cons, if_pos hc]
  rfl

theorem lstrip_cons_of_not_ws {c : Char} {t : Str} (hc : ws c = false) :
    lstrip (c :: t) = c :: t := by
  show List.dropWhile ws (c :: t) = _
  rw [List.dropWhile_cons, if_neg (by simp [hc])]

theorem rstrip_cons (c : Char) (t : Str) :
    rstrip (c :: t) = match rstrip t with
      | [] => if ws c then [] else [c]
      | r => c :: r := rfl

theorem rstrip_cons_of_not_ws {c : Char} (t : Str) (h : ws c = false) :
    rstrip (c :: t) = c :: rstrip t := by
  rw [rstrip_cons]
  cases hr : rstrip t with
  | nil => simp [h]
  | cons x r => simp

theorem rstrip_cons_of_ne_nil {c : Char} {t : Str} (h : rstrip t ≠ []) :
    rstrip (c :: t) = c :: rstrip t := by
  rw [rstrip_cons]
  cases hr : rstrip t with
  | nil => exact absurd hr h
  | cons x r => simp

theorem rstrip_cons_of_ws_nil {c : Char} {t : Str} (hc : ws c = true)
    (h : rstrip t = []) : rstrip (c :: t) = [] := by
  rw [rstrip_cons, h]
  simp [hc]

theorem rstrip_append_not_ws {c : Char} (a b : Str) (h : ws c = false) :
    rstrip (a ++ c :: b) = a ++ c :: rstrip b := by
  induction a with
  | nil => exact rstrip_cons_of_not_ws b h
  | cons x t ih =>
    have hne : rstrip (t ++ c :: b) ≠ [] := by
      rw [ih]; simp
    rw [List.cons_append, rstrip_cons_of_ne_nil hne, ih, List.cons_append]

theorem lstrip_append_not_ws {c : Char} (a b : Str) (h : ws c = false) :
    lstrip (a ++ c :: b) = lstrip a ++ c :: b := by
  induction a with
  | nil => simp [lstrip, List.dropWhile_cons, h]
  | cons x t ih =>
    by_cases hx : ws x = true
    · rw [List.cons_append, lstrip_cons_of_ws hx, lstrip_cons_of_ws hx, ih]
    · have hx2 : ws x = false := by simpa using hx
      rw [List.cons_append, lstrip_cons_of_not_ws hx2, lstrip_cons_of_not_ws hx2,
        List.cons_append]

theorem rstrip_eq_nil_imp {l : Str} (h : rstrip l = []) : lstrip l = [] := by
  induction l with
  | nil => rfl
  | cons c t ih =>
    by_cases hc : ws c = true
    · cases hr : rstrip t with
      | cons x r =>
        rw [rstrip_cons_of_ne_nil (by rw [hr]; simp)] at h
        exact absurd h (by simp)
      | nil =>
        rw [lstrip_cons_of_ws hc]
        exact ih hr
    · have hc2 : ws c = false := by simpa using hc
      rw [rstrip_cons_of_not_ws t hc2] at h
      exact absurd h (by simp)

theorem lstrip_rstrip_comm (l : Str) : lstrip (rstrip l) = rstrip (lstrip l) := by
  induction l with
  | nil => rfl
  | cons c t ih =>
    by_cases hc : ws c = true
    · rw [lstrip_cons_of_ws hc]
      cases hr : rstrip t with
      | nil =>
        rw [rstrip_cons_of_ws_nil hc hr, rstrip_eq_nil_imp hr]
        rfl
      | cons x r =>
        rw [rstrip_cons_of_ne_nil (by rw [hr]; simp), lstrip_cons_of_ws hc, ih]
    · have hc2 : ws c = false := by simpa using hc
      rw [rstrip_cons_of_not_ws t hc2, lstrip_cons_of_not_ws hc2,
        lstrip_cons_of_not_ws hc2, rstrip_cons_of_not_ws t hc2]

theorem rstrip_idem (l : Str) : rstrip (rstrip l) = rstrip l := by
  induction l with
  | nil => rfl
  | cons c t ih =>
    cases hr : rstrip t with
    | nil =>
      by_cases hc : ws c = true
      · rw [rstrip_cons_of_ws_nil hc hr]; rfl
      · have hc2 : ws c = false := by simpa using hc
        rw [rstrip_cons_of_not_ws t hc2, hr, rstrip_cons_of_not_ws ([]) hc2]
        rfl
    | cons x r =>
      have hne : rstrip t ≠ [] := by rw [hr]; simp
      have hne2 : rstrip (rstrip t) ≠ [] := by rw [ih]; exact hne
      rw [rstrip_cons_of_ne_nil hne, rstrip_cons_of_ne_nil hne2, ih]

theorem strip_lstrip (l : Str) : strip (lstrip l) = strip l := by
  unfold strip
  rw [lstrip_idem]

theorem strip_rstrip (l : Str) : strip (rstrip l) = strip l := by
  unfold strip
  rw [lstrip_rstrip_comm, rstrip_idem]

theorem strip_append_not_ws {c : Char} (a b : Str) (h : ws c = false) :
    strip (a ++ c :: b) = lstrip a ++ c :: rstrip b := by
  unfold strip
  rw [lstrip_append_not_ws a b h, rstrip_append_not_ws (lstrip a) b h]

theorem splitFirst_append {c : Char} (a b : Str) (h : c ∉ a) :
    splitFirst c (a ++ c :: b) = (a, b) := by
  induction a with
  | nil => simp [splitFirst]
  | cons x t ih =>
    have hx : x ≠ c := fun he => h (he ▸ List.mem_cons_self x t)
    have ht : c ∉ t := fun hm => h (List.mem_cons_of_mem x hm)
    simp [splitFirst, hx, ih ht]

theorem parseProperty_split (ls rs : Str) (h : '=' ∉ ls) :
    parseProperty (ls ++ '=' :: rs) =
      if (strip ls).isEmpty then .error () else .ok (strip ls, strip rs) := by
  have hws : ws '=' = false := by decide
  have hp : strip (ls ++ '=' :: rs) = lstrip ls ++ '=' :: rstrip rs :=
    strip_append_not_ws ls rs hws
  have hmem : '=' ∉ lstrip ls := fun hm => h (mem_lstrip hm)
  have hsplit : splitFirst '=' (lstrip ls ++ '=' :: rstrip rs) = (lstrip ls, rstrip rs) :=
    splitFirst_append (lstrip ls) (rstrip rs) hmem
  have hemp : (lstrip ls ++ '=' :: rstrip rs).isEmpty = false := by
    cases lstrip ls <;> simp
  have hcont : (lstrip ls ++ '=' :: rstrip rs).contains '=' = true := by
    simp [List.contains]
  simp only [parseProperty, hp, hemp, hcont, hsplit, Bool.false_eq_true, if_false,
    not_true, strip_lstrip, strip_rstrip]

/-! ### Characterization of the batch driver -/

/-- A repository is classified succeeded iff every property update on it
returned `True`. -/
def repoOk (upd : Upd) (properties : List (Str × Str)) (r : Repo) : Bool :=
  properties.all (fun p => upd r p.1 p.2)

/-- The PATCH calls of a non-dry run: every property for every repository,
in order, and nothing else. -/
def allCalls (properties : List (Str × Str)) (rs : List Repo) : List Call :=
  rs.flatMap (fun r => properties.map (fun p => ⟨r, p.1, p.2⟩))

theorem applyProperties_spec (upd : Upd) (repo : Repo)
    (properties : List (Str × Str)) :
    applyProperties upd repo properties =
      (repoOk upd properties repo,
       properties.map (fun p => Call.mk repo p.1 p.2)) := by
  have aux : ∀ (ps : List (Str × Str)) (b : Bool) (cs : List Call),
      ps.foldl (fun acc p => (acc.1 && upd repo p.1 p.2, acc.2 ++ [⟨repo, p.1, p.2⟩]))
        (b, cs)
      = (b && ps.all (fun p => upd repo p.1 p.2),
         cs ++ ps.map (fun p => Call.mk repo p.1 p.2)) := by
    intro ps
    induction ps with
    | nil => intro b cs; simp
    | cons p ps ih =>
      intro b cs
      simp only [List.foldl_cons, ih, List.all_cons, List.map_cons]
      simp [Bool.and_assoc]
  unfold applyProperties repoOk
  rw [aux]
  simp

theorem foldl_dry_aux (rs : List Repo)
    (f : RunResults × List Call → Repo → RunResults × List Call)
    (hf : ∀ acc r, f acc r = ({ acc.1 with skipped := acc.1.skipped + 1 }, acc.2)) :
    ∀ acc, rs.foldl f acc =
      ({ acc.1 with skipped := acc.1.skipped + rs.length }, acc.2) := by
  induction rs with
  | nil => intro acc; simp
  | cons r rs ih =>
    intro acc
    rw [List.foldl_cons, hf, ih]
    simp [Nat.add_assoc, Nat.add_comm 1]

theorem foldl_run_aux (upd : Upd) (properties : List (Str × Str)) (rs : List Repo)
    (f : RunResults × List Call → Repo → RunResults × List Call)
    (hf : ∀ acc r, f acc r =
      (if repoOk upd properties r then { acc.1 with success := acc.1.success + 1 }
       else { acc.1 with failed := acc.1.failed + 1 },
       acc.2 ++ properties.map (fun p => Call.mk r p.1 p.2))) :
    ∀ acc, rs.foldl f acc =
      (⟨acc.1.success + (rs.filter (repoOk upd properties)).length,
        acc.1.failed + (rs.filter (fun r => ! repoOk upd properties r)).length,
        acc.1.skipped⟩,
       acc.2 ++ allCalls properties rs) := by
  induction rs with
  | nil => intro acc; simp [allCalls]
  | cons r rs ih =>
    intro acc
    rw [List.foldl_cons, hf]
    by_cases hr : repoOk upd properties r = true
    · rw [if_pos hr, ih]
      simp [allCalls, List.filter_cons, hr]
      omega
    · rw [if_neg (by simp [hr]), ih]
      simp [allCalls, List.filter_cons, hr]
      omega

/-- A dry run: every filtered repository is counted skipped, the other
counters stay zero, and no PATCH call is issued. -/
theorem run_spec_dry (upd : Upd) (repos : List Repo)
    (properties : List (Str × Str)) (repo_filter : Option Str) :
    set_properties_on_all_repos upd repos properties true repo_filter =
      (⟨0, 0, (filteredRepos repo_filter repos).length⟩, []) := by
  unfold set_properties_on_all_repos
  rw [foldl_dry_aux _ _ (fun acc r => by simp) (⟨0, 0, 0⟩, [])]
  simp

/-- A non-dry run: the success counter counts the filtered repositories on
which every property update succeeded, the failed counter the rest, the
skipped counter is zero, and the call trace is exactly one PATCH per
(filtered repository, property) pair, in order. -/
theorem run_spec (upd : Upd) (repos : List Repo)
    (properties : List (Str × Str)) (repo_filter : Option Str) :
    set_properties_on_all_repos upd repos properties false repo_filter =
      (⟨((filteredRepos repo_filter repos).filter (repoOk upd properties)).length,
        ((filteredRepos repo_filter repos).filter
          (fun r => ! repoOk upd properties r)).length,
        0⟩,
       allCalls properties (filteredRepos repo_filter repos)) := by
  unfold set_properties_on_all_repos
  rw [foldl_run_aux upd properties _ _
    (fun acc r => by simp [applyProperties_spec]) (⟨0, 0, 0⟩, [])]
  simp

theorem containsSub_iff_infix (n h : Str) : containsSub n h = true ↔ n <:+: h := by
  induction h with
  | nil => simp [containsSub, List.infix_nil]
  | cons c rest ih =>
    simp only [containsSub, Bool.or_eq_true, List.isPrefixOf_iff_prefix, ih,
      List.infix_cons_iff]

theorem lookup_dictInsert_self (m : List (Str × Str)) (n v : Str) :
    List.lookup n (dictInsert m n v) = some v := by
  induction m with
  | nil => simp [dictInsert, List.lookup]
  | cons kv rest ih =>
    by_cases hk : kv.1 = n
    · have hb : (n == kv.1) = true := by simp [hk]
      simp [dictInsert, hk, List.lookup]
    · have hb : (n == kv.1) = false := by simp [Ne.symm hk]
      simp [dictInsert, hk, List.lookup, hb, ih]

theorem lookup_dictInsert_ne (m : List (Str × Str)) (n nn v : Str) (h : nn ≠ n) :
    List.lookup nn (dictInsert m n v) = List.lookup nn m := by
  have hb : (nn == n) = false := by simp [h]
  induction m with
  | nil => simp [dictInsert, List.lookup, hb]
  | cons kv rest ih =>
    by_cases hk : kv.1 = n
    · have hb2 : (nn == kv.1) = false := by
        simp only [hk]
        exact hb
      simp [dictInsert, hk, List.lookup, hb2, hb]
    · by_cases hk2 : nn = kv.1
      · have hb2 : (nn == kv.1) = true := by simp [hk2]
        simp [dictInsert, hk, List.lookup, hb2]
      · have hb2 : (nn == kv.1) = false := by simp [hk2]
        simp [dictInsert, hk, List.lookup, hb2, ih]

theorem mainRun_no_token (args : Args) (w : World)
    (h : tokenMissing args.token = true) : mainRun args w = (1, [], none) := by
  simp [mainRun, h]

theorem mainRun_bad_props (args : Args) (w : World)
    (h : combinedProps args.propsFile args.propArgs = .error ()) :
    mainRun args w = (1, [], none) := by
  by_cases ht : tokenMissing args.token = true
  · simp [mainRun, ht]
  · simp [mainRun, ht, h]

theorem mainRun_empty_props (args : Args) (w : World)
    (h : combinedProps args.propsFile args.propArgs = .ok []) :
    mainRun args w = (1, [], none) := by
  by_cases ht : tokenMissing args.token = true
  · simp [mainRun, ht]
  · simp [mainRun, ht, h]

theorem mainRun_conn_fail (args : Args) (w : World) (props : List (Str × Str))
    (ht : tokenMissing args.token = false)
    (hp : combinedProps args.propsFile args.propArgs = .ok props)
    (hne : props ≠ [])
    (hcf : validate_connection w.connect = false) :
    mainRun args w = (1, [.getOrganization], none) := by
  have hne2 : props.isEmpty = false := by
    cases props with
    | nil => exact absurd rfl hne
    | cons a b => rfl
  simp [mainRun, ht, hp, hne2, hcf]

theorem mainRun_run (args : Args) (w : World) (props : List (Str × Str))
    (ht : tokenMissing args.token = false)
    (hp : combinedProps args.propsFile args.propArgs = .ok props)
    (hne : props ≠ [])
    (hc : validate_connection w.connect = true) :
    mainRun args w =
      (let rc := set_properties_on_all_repos (wUpd w) (get_all_repos w.listing) props
         args.dry_run args.filter
       ((if rc.1.failed > 0 then 1 else 0),
        .getOrganization :: .getRepos ::
          rc.2.map (fun c => NetCall.patchProps c.repo c.prop c.val),
        some rc.1)) := by
  have hne2 : props.isEmpty = false := by
    cases props with
    | nil => exact absurd rfl hne
    | cons a b => rfl
  simp [mainRun, ht, hp, hne2, hc]

theorem filteredRepos_nil (repo_filter : Option Str) :
    filteredRepos repo_filter [] = [] := by
  cases repo_filter with
  | none => rfl
  | some f => simp [filteredRepos]

/-! ### Claims -/

/-- C1: for every run of `set_properties_on_all_repos`, over any repository
list, property set, filter and dry-run setting, the three counters satisfy
`success + failed + skipped = length of the filtered repository list`. -/
theorem counters_sum_filtered_length
    (upd : Upd) (repos : List Repo) (properties : List (Str × Str))
    (dry_run : Bool) (repo_filter : Option Str) :
    (set_properties_on_all_repos upd repos properties dry_run repo_filter).1.success
    + (set_properties_on_all_repos upd repos properties dry_run repo_filter).1.failed
    + (set_properties_on_all_repos upd repos properties dry_run repo_filter).1.skipped
    = (filteredRepos repo_filter repos).length := by
  cases dry_run
  · rw [run_spec]
    have h := List.length_eq_length_filter_add
      (l := filteredRepos repo_filter repos) (repoOk upd properties)
    simp only []
    omega
  · rw [run_spec_dry]
    simp

/-- C2: the driver operates on exactly the repositories whose short name
contains the filter string case-insensitively (substring, i.e. infix, of
the lowercased name); with no filter the list is unchanged. -/
theorem filter_membership_spec :
    (∀ (f : Str) (repos : List Repo) (r : Repo),
      r ∈ filteredRepos (some f) repos ↔
        r ∈ repos ∧ lower f <:+: lower r.name) ∧
    (∀ repos : List Repo, filteredRepos none repos = repos) := by
  constructor
  · intro f repos r
    by_cases hf : f.isEmpty = true
    · have hfe : f = [] := by simpa using hf
      subst hfe
      simp [filteredRepos, lower]
    · simp [filteredRepos, hf, List.mem_filter, containsSub_iff_infix]
  · intro repos
    rfl

/-- C3: in dry-run mode the driver never issues a PATCH call (empty call
trace), the skipped counter equals the filtered list length, and the
success and failed counters are zero. -/
theorem dry_run_skips_all_no_calls
    (upd : Upd) (repos : List Repo) (properties : List (Str × Str))
    (repo_filter : Option Str) :
    set_properties_on_all_repos upd repos properties true repo_filter =
      (⟨0, 0, (filteredRepos repo_filter repos).length⟩, []) := by
  rw [run_spec_dry]

/-- C4: with dry-run off the driver attempts every property on every
filtered repository (the call trace is exactly one PATCH per pair, with
no early stop and no rollback calls), classifies a repository succeeded
only if every property update succeeded and failed otherwise; on the
3-repository scenario where one property update fails on the second
repository the result is success=2, failed=1, skipped=0. -/
theorem non_dry_run_classification :
    (∀ (upd : Upd) (repos : List Repo) (properties : List (Str × Str))
       (repo_filter : Option Str),
      set_properties_on_all_repos upd repos properties false repo_filter =
        (⟨((filteredRepos repo_filter repos).filter (repoOk upd properties)).length,
          ((filteredRepos repo_filter repos).filter
            (fun r => ! repoOk upd properties r)).length,
          0⟩,
         allCalls properties (filteredRepos repo_filter repos))) ∧
    (set_properties_on_all_repos
        (fun r nm _ => ! (r.name == "beta".toList && nm == "env".toList))
        [⟨"alpha".toList, "org/alpha".toList⟩, ⟨"beta".toList, "org/beta".toList⟩,
         ⟨"gamma".toList, "org/gamma".toList⟩]
        [("team".toList, "backend".toList), ("env".toList, "prod".toList)]
        false none).1 = ⟨2, 1, 0⟩ := by
  constructor
  · intro upd repos properties repo_filter
    exact run_spec upd repos properties repo_filter
  · decide

/-- C5 counterexample: with a valid configuration and a successful
connection, a transport failure of the repository-listing call does not
surface as an error: the run proceeds and terminates with exit code 0 and
an all-zero summary, instead of a failure exit. -/
theorem listing_failure_proceeds_counterexample :
    mainRun ⟨some ("tok".toList), ["team=backend".toList], none, false, none⟩
        ⟨.ok (), .error .network, fun _ _ _ => .response 200 []⟩
      = (0, [.getOrganization, .getRepos], some ⟨0, 0, 0⟩) := by decide

/-- C5 amended: failures of `get_organization` (invalid credentials,
nonexistent organization, transport failure) make `validate_connection`
fail and `main` exit 1 before listing; but a failure of the listing call
itself is swallowed by `get_all_repos`, which returns the empty list (a
normal result, the error kind indistinguishable to the caller), and the
run proceeds to an all-zero summary with exit code 0. -/
theorem connection_vs_listing_failure :
    (∀ e : GithubError, get_all_repos (.error e) = []) ∧
    (∀ (args : Args) (w : World) (props : List (Str × Str)),
      tokenMissing args.token = false →
      combinedProps args.propsFile args.propArgs = .ok props → props ≠ [] →
      validate_connection w.connect = false →
      mainRun args w = (1, [.getOrganization], none)) ∧
    (∀ (args : Args) (w : World) (props : List (Str × Str)) (e : GithubError),
      tokenMissing args.token = false →
      combinedProps args.propsFile args.propArgs = .ok props → props ≠ [] →
      validate_connection w.connect = true →
      w.listing = .error e →
      (mainRun args w).1 = 0 ∧ (mainRun args w).2.2 = some ⟨0, 0, 0⟩) := by
  refine ⟨fun e => rfl, mainRun_conn_fail, ?_⟩
  intro args w props e ht hp hne hc hl
  rw [mainRun_run args w props ht hp hne hc]
  have hrepos : get_all_repos w.listing = [] := by rw [hl]; rfl
  cases hd : args.dry_run
  · simp only [hrepos, hd, run_spec, filteredRepos_nil]
    simp [allCalls]
  · simp only [hrepos, hd, run_spec_dry, filteredRepos_nil]
    simp

theorem connection_vs_listing_failure_witness :
    mainRun ⟨some ("tok".toList), ["team=backend".toList], none, false, none⟩
        ⟨.error .auth, .ok [], fun _ _ _ => .response 200 []⟩
      = (1, [.getOrganization], none) :=
  connection_vs_listing_failure.2.1
    ⟨some ("tok".toList), ["team=backend".toList], none, false, none⟩
    ⟨.error .auth, .ok [], fun _ _ _ => .response 200 []⟩
    [("team".toList, "backend".toList)]
    (by decide) (by decide) (by decide) rfl

/-- C6: whenever the combined property sources yield an empty mapping,
`main` exits with code 1 before any network request is issued (empty
request trace, no run). -/
theorem empty_properties_config_error (args : Args) (w : World)
    (h : combinedProps args.propsFile args.propArgs = .ok []) :
    mainRun args w = (1, [], none) :=
  mainRun_empty_props args w h

theorem empty_properties_config_error_witness :
    mainRun ⟨some ("tok".toList), [], none, false, none⟩
        ⟨.ok (), .ok [], fun _ _ _ => .response 200 []⟩ = (1, [], none) :=
  empty_properties_config_error
    ⟨some ("tok".toList), [], none, false, none⟩
    ⟨.ok (), .ok [], fun _ _ _ => .response 200 []⟩ (by decide)

/-- C7: `"team=backend"` parses to the pair `("team", "backend")`;
`"team"` (no `=`) is rejected; in general, for any argument whose name
part contains no `=`, the split happens at the first `=`, so the value may
itself contain `=`. -/
theorem property_parsing_spec :
    parseProperty ("team=backend".toList) = .ok ("team".toList, "backend".toList) ∧
    parseProperty ("team".toList) = .error () ∧
    (∀ ls rs : Str, '=' ∉ ls → strip ls ≠ [] →
      parseProperty (ls ++ '=' :: rs) = .ok (strip ls, strip rs)) := by
  refine ⟨by decide, by decide, ?_⟩
  intro ls rs h hne
  rw [parseProperty_split ls rs h]
  have : (strip ls).isEmpty = false := by
    cases hs : strip ls with
    | nil => exact absurd hs hne
    | cons a b => rfl
  simp [this]

theorem property_parsing_spec_witness :
    parseProperty ("a=b=c".toList) = .ok ("a".toList, "b=c".toList) := by
  have h := property_parsing_spec.2.2 ("a".toList) ("b=c".toList)
    (by decide) (by decide)
  exact h

/-- C9 counterexample: a 304 response is not a 2xx status, yet
`set_custom_property` returns the success result, because
`raise_for_status` only raises for statuses in [400, 600). -/
theorem non2xx_success_counterexample :
    set_custom_property (.response 304 ("Not Modified".toList)) = .ok ∧
    ¬(200 ≤ 304 ∧ 304 < 300) := by decide

/-- C9 amended: `set_custom_property` returns a failure result, without
raising, exactly on statuses in [400, 600) — tagged with the status code,
from which client (4xx) vs server (5xx) class is read, and independent of
the response body, which is never exposed — and returns distinctly tagged
failures on connection error and timeout; every other status (2xx but also
1xx/3xx) yields the success result.  One `HttpOutcome` is consumed per
call: a single request, no retry. -/
theorem set_custom_property_classification :
    (∀ (status : Nat) (body : Str), 400 ≤ status → status < 600 →
      set_custom_property (.response status body) = .httpFailure status) ∧
    (∀ (status : Nat) (body : Str), status < 400 ∨ 600 ≤ status →
      set_custom_property (.response status body) = .ok) ∧
    (∀ (status : Nat) (bodyA bodyB : Str),
      set_custom_property (.response status bodyA)
        = set_custom_property (.response status bodyB)) ∧
    set_custom_property .connectionError = .connectionFailure ∧
    set_custom_property .timeout = .timeoutFailure ∧
    set_custom_property .requestError = .requestFailure ∧
    set_custom_property .otherError = .unexpectedFailure := by
  refine ⟨?_, ?_, ?_, rfl, rfl, rfl, rfl⟩
  · intro s b h1 h2
    simp [set_custom_property, h1, h2]
  · intro s b h
    have : ¬(400 ≤ s ∧ s < 600) := by omega
    simp [set_custom_property, this]
  · intro s b1 b2
    simp [set_custom_property]

theorem set_custom_property_classification_witness :
    set_custom_property (.response 404 []) = .httpFailure 404 :=
  set_custom_property_classification.1 404 [] (by decide) (by decide)

/-- C10: the later assignment wins across sources (a `--property` pair
overrides a same-named entry from the properties file; among repeated
flags the last occurrence wins, shown both concretely and by the general
override laws of dict assignment); name and value are stripped of
surrounding whitespace; an empty name is rejected with exit code 1; an
empty value is accepted. -/
theorem later_assignment_wins :
    combinedProps (some (.ok [("team".toList, "frontend".toList)]))
        ["team=backend".toList] = .ok [("team".toList, "backend".toList)] ∧
    combinedProps none ["env=dev".toList, "env=prod".toList]
      = .ok [("env".toList, "prod".toList)] ∧
    (∀ (m : List (Str × Str)) (n v : Str),
      List.lookup n (dictInsert m n v) = some v) ∧
    (∀ (m : List (Str × Str)) (n nn v : Str), nn ≠ n →
      List.lookup nn (dictInsert m n v) = List.lookup nn m) ∧
    parseProperty (" name = value ".toList) = .ok ("name".toList, "value".toList) ∧
    (∀ (w : World) (t : Str) (dry : Bool) (filt : Option Str), ¬ t.isEmpty →
      mainRun ⟨some t, ["=x".toList], none, dry, filt⟩ w = (1, [], none)) ∧
    parseProperty ("name=".toList) = .ok ("name".toList, []) := by
  refine ⟨by decide, by decide, lookup_dictInsert_self, lookup_dictInsert_ne,
    by decide, ?_, by decide⟩
  intro w t dry filt ht
  apply mainRun_bad_props
  have hparse : parseProperty ['=', 'x'] = .error () := by decide
  simp [combinedProps, addCliProps, hparse]

theorem mainRun_value_dry (args : Args) (w : World) (props : List (Str × Str))
    (ht : tokenMissing args.token = false)
    (hp : combinedProps args.propsFile args.propArgs = .ok props)
    (hne : props ≠ [])
    (hc : validate_connection w.connect = true)
    (hd : args.dry_run = true) :
    mainRun args w =
      (0, [.getOrganization, .getRepos],
       some ⟨0, 0, (filteredRepos args.filter (get_all_repos w.listing)).length⟩) := by
  rw [mainRun_run args w props ht hp hne hc, hd]
  simp only [run_spec_dry]
  simp

theorem mainRun_value_nondry (args : Args) (w : World) (props : List (Str × Str))
    (ht : tokenMissing args.token = false)
    (hp : combinedProps args.propsFile args.propArgs = .ok props)
    (hne : props ≠ [])
    (hc : validate_connection w.connect = true)
    (hd : args.dry_run = false) :
    mainRun args w =
      (if ((filteredRepos args.filter (get_all_repos w.listing)).filter
            (fun r => ! repoOk (wUpd w) props r)).length > 0 then 1 else 0,
       .getOrganization :: .getRepos ::
         (allCalls props (filteredRepos args.filter (get_all_repos w.listing))).map
           (fun c => NetCall.patchProps c.repo c.prop c.val),
       some ⟨((filteredRepos args.filter (get_all_repos w.listing)).filter
            (repoOk (wUpd w) props)).length,
          ((filteredRepos args.filter (get_all_repos w.listing)).filter
            (fun r => ! repoOk (wUpd w) props r)).length,
          0⟩) := by
  rw [mainRun_run args w props ht hp hne hc, hd]
  simp only [run_spec]

/-- C8: the exit code is always 0 or 1; it is 0 exactly when the
configuration is valid, the connection succeeded, and either the run was
a dry run or every filtered repository was classified succeeded; and under
a valid configuration an empty filtered list yields the all-zero summary
with exit code 0. -/
theorem exit_code_spec (args : Args) (w : World) :
    ((mainRun args w).1 = 0 ∨ (mainRun args w).1 = 1) ∧
    ((mainRun args w).1 = 0 ↔
      tokenMissing args.token = false ∧
      ∃ props, combinedProps args.propsFile args.propArgs = .ok props ∧
        props ≠ [] ∧ validate_connection w.connect = true ∧
        (args.dry_run = true ∨
          ∀ r ∈ filteredRepos args.filter (get_all_repos w.listing),
            repoOk (wUpd w) props r = true)) ∧
    (∀ props : List (Str × Str), tokenMissing args.token = false →
      combinedProps args.propsFile args.propArgs = .ok props → props ≠ [] →
      validate_connection w.connect = true →
      filteredRepos args.filter (get_all_repos w.listing) = [] →
      mainRun args w = (0, [.getOrganization, .getRepos], some ⟨0, 0, 0⟩)) := by
  by_cases ht : tokenMissing args.token = true
  · rw [mainRun_no_token args w ht]
    refine ⟨Or.inr rfl, ?_, ?_⟩
    · simp [ht]
    · intro props ht2
      rw [ht] at ht2
      exact absurd ht2 (by simp)
  · have hts : tokenMissing args.token = false := by simpa using ht
    cases hp : combinedProps args.propsFile args.propArgs with
    | error u =>
      cases u
      rw [mainRun_bad_props args w hp]
      refine ⟨Or.inr rfl, ?_, ?_⟩
      · simp
      · intro props _ hp2
        exact absurd hp2 (by simp)
    | ok props0 =>
      cases props0 with
      | nil =>
        rw [mainRun_empty_props args w hp]
        refine ⟨Or.inr rfl, ?_, ?_⟩
        · constructor
          · intro h
            exact absurd h (by simp)
          · rintro ⟨-, props2, hp2, hne2, -⟩
            injection hp2 with h2
            exact absurd h2.symm hne2
        · intro props2 _ hp2 hne2 _ _
          injection hp2 with h2
          exact absurd h2.symm hne2
      | cons q qs =>
        have hne : (q :: qs : List (Str × Str)) ≠ [] := by simp
        by_cases hc : validate_connection w.connect = true
        · cases hd : args.dry_run
          · rw [mainRun_value_nondry args w (q :: qs) hts hp hne hc hd]
            refine ⟨?_, ?_, ?_⟩
            · by_cases hz : ((filteredRepos args.filter (get_all_repos w.listing)).filter
                  (fun r => ! repoOk (wUpd w) (q :: qs) r)).length > 0
              · exact Or.inr (by simp [hz])
              · exact Or.inl (by simp [hz])
            · constructor
              · intro h
                refine ⟨hts, q :: qs, rfl, hne, hc, Or.inr ?_⟩
                intro r hr
                by_cases hz : ((filteredRepos args.filter (get_all_repos w.listing)).filter
                    (fun r => ! repoOk (wUpd w) (q :: qs) r)).length > 0
                · rw [if_pos hz] at h
                  exact absurd h one_ne_zero
                · have hz0 : ((filteredRepos args.filter (get_all_repos w.listing)).filter
                      (fun r => ! repoOk (wUpd w) (q :: qs) r)).length = 0 := by omega
                  have hfe := List.length_eq_zero.mp hz0
                  have := List.filter_eq_nil_iff.mp hfe r hr
                  simpa using this
              · rintro ⟨-, props2, hp2, -, -, hor⟩
                injection hp2 with h2
                subst h2
                rcases hor with hdt | hall
                · exact absurd hdt (by simp)
                · have hfe : (filteredRepos args.filter (get_all_repos w.listing)).filter
                      (fun r => ! repoOk (wUpd w) (q :: qs) r) = [] := by
                    apply List.filter_eq_nil_iff.mpr
                    intro a ha
                    simp [hall a ha]
                  rw [hfe]
                  simp
            · intro props2 _ hp2 _ _ hF
              rw [hF]
              simp [allCalls]
          · rw [mainRun_value_dry args w (q :: qs) hts hp hne hc hd]
            refine ⟨Or.inl rfl, ?_, ?_⟩
            · constructor
              · intro _
                exact ⟨hts, q :: qs, rfl, hne, hc, Or.inl rfl⟩
              · intro _
                rfl
            · intro props2 _ hp2 _ _ hF
              rw [hF]
              rfl
        · have hcf : validate_connection w.connect = false := by simpa using hc
          rw [mainRun_conn_fail args w (q :: qs) hts hp hne hcf]
          refine ⟨Or.inr rfl, ?_, ?_⟩
          · constructor
            · intro h
              exact absurd h (by simp)
            · rintro ⟨-, props2, hp2, hne2, hc2, -⟩
              rw [hcf] at hc2
              exact absurd hc2 (by simp)
          · intro props2 _ _ _ hc2 _
            rw [hcf] at hc2
            exact absurd hc2 (by simp)

theorem exit_code_spec_witness :
    mainRun ⟨some ("tok".toList), ["team=backend".toList], none, false, none⟩
        ⟨.ok (), .ok [], fun _ _ _ => .response 200 []⟩
      = (0, [.getOrganization, .getRepos], some ⟨0, 0, 0⟩) :=
  (exit_code_spec
    ⟨some ("tok".toList), ["team=backend".toList], none, false, none⟩
    ⟨.ok (), .ok [], fun _ _ _ => .response 200 []⟩).2.2
    [("team".toList, "backend".toList)]
    (by decide) (by decide) (by decide) rfl (by decide)

theorem later_assignment_wins_witness :
    List.lookup ("a".toList)
        (dictInsert [("a".toList, "1".toList)] ("b".toList) ("2".toList))
      = some ("1".toList) ∧
    mainRun ⟨some ("tok".toList), ["=x".toList], none, false, none⟩
        ⟨.ok (), .ok [], fun _ _ _ => .response 200 []⟩ = (1, [], none) :=
  ⟨later_assignment_wins.2.2.2.1 [("a".toList, "1".toList)]
      ("b".toList) ("a".toList) ("2".toList) (by decide),
   later_assignment_wins.2.2.2.2.2.1
      ⟨.ok (), .ok [], fun _ _ _ => .response 200 []⟩
      ("tok".toList) false none (by decide)⟩
